import Mathlib

/-!
Verification of the patto_memo backend against its specification.

The development shallowly embeds the Python modules
`apps/api/queue_manager.py`, `apps/api/sse_manager.py` and
`apps/api/ai_processor.py`:

* machine floats become rationals (`ℚ`);
* `deque(maxlen=n)` becomes a `List` together with an explicit bounded
  append (`dequeAppend`);
* `async` methods hold the manager lock for their whole body, so each one
  is embedded as a pure state-transformer on the manager record;
* Python exceptions become explicit result values; every embedded
  operation is a total Lean function, so an operation that the source can
  never abort with an exception is modelled by a function that always
  returns.
-/

/- Batteries marks the rational field operations `@[irreducible]`, which
blocks `decide` and `rfl` evaluation of concrete states; restore the
default reducibility for this development. -/
attribute [local semireducible] Rat.mul Rat.add Rat.sub Rat.inv

/-- Truncation towards zero, the semantics of the Python builtin `int()`
applied to a float/number. -/
def pyInt (q : ℚ) : ℤ :=
  if 0 ≤ q then ⌊q⌋ else ⌈q⌉

/-- Appending on a `deque(maxlen=maxlen)`: the new element is appended on
the right and, if the length bound is exceeded, elements are discarded
from the left. -/
def dequeAppend (maxlen : Nat) (q : List α) (x : α) : List α :=
  let ys := q ++ [x]
  if ys.length ≤ maxlen then ys else ys.drop (ys.length - maxlen)

/-- `QueuedFrame` from `apps/api/queue_manager.py` (a pydantic model, so
Python equality on it is field-wise value equality, matching `DecidableEq`). -/
structure QueuedFrame where
  image_base64 : String
  prompt : String
  prompt_type : String
  timestamp : ℚ
  priority : ℤ := 0
  deriving DecidableEq, Repr

/-- The mutable state of `QueueManager`.  `maxSize` is the `maxlen` of the
pending deque (fixed at construction), `queue` its contents with the
oldest frame first.  `processing_times` is the `deque(maxlen=20)` of
recorded processing times.  The `asyncio.Lock` is not represented: every
embedded method is atomic. -/
structure QueueManager where
  queue : List QueuedFrame
  maxSize : Nat
  drop_threshold : Nat
  processing_times : List ℚ
  last_frame_time : ℚ
  min_frame_interval : ℚ
  processing_active : Bool
  deriving DecidableEq, Repr

/-- `QueueManager.__init__(max_size, drop_threshold)`. -/
def initQueueManager (max_size drop_threshold : Nat) : QueueManager :=
  { queue := []
    maxSize := max_size
    drop_threshold := drop_threshold
    processing_times := []
    last_frame_time := 0
    min_frame_interval := 1/2
    processing_active := false }

/-- The Python builtin `min` on two numbers, written with an explicit
comparison so the kernel can evaluate it on rationals. -/
def pyMin (a b : ℚ) : ℚ :=
  if a ≤ b then a else b

theorem pyMin_eq_min (a b : ℚ) : pyMin a b = min a b :=
  (min_def a b).symm

/-- The drop-rate formula `min(0.8, (queue_size - drop_threshold) / drop_threshold)`
shared by `add_frame` and `_calculate_drop_rate` (the subtraction is on
Python ints, hence the casts to `ℚ` before subtracting). -/
def dropRateFor (queue_size drop_threshold : Nat) : ℚ :=
  pyMin (4/5) (((queue_size : ℚ) - (drop_threshold : ℚ)) / (drop_threshold : ℚ))

/-- `QueueManager._calculate_drop_rate`. -/
def calculate_drop_rate (m : QueueManager) : ℚ :=
  if m.queue.length < m.drop_threshold then 0
  else dropRateFor m.queue.length m.drop_threshold

/-- `QueueManager.add_frame(frame)` called at wall-clock time
`current_time`.  Returns the boolean result, the new manager state and
the frame object as the caller sees it afterwards (Python mutates
`frame.priority` in place on the accept path). -/
def add_frame (m : QueueManager) (frame : QueuedFrame) (current_time : ℚ) :
    Bool × QueueManager × QueuedFrame :=
  let queue_size := m.queue.length
  -- Drop immediately if processing is slow and queue is full
  if m.processing_active ∧ m.drop_threshold ≤ queue_size then
    (false, m, frame)
  -- Calculate drop rate based on queue depth; skip frame based on drop rate and time
  else if m.drop_threshold ≤ queue_size ∧
      current_time - m.last_frame_time <
        m.min_frame_interval * (1 + dropRateFor queue_size m.drop_threshold * 4) then
    (false, m, frame)
  else
    -- Add frame with priority (newer frames have higher priority)
    let f := { frame with priority := pyInt (current_time * 1000) }
    (true,
     { m with
        queue := dequeAppend m.maxSize m.queue f
        last_frame_time := current_time },
     f)

/-- Stable insertion (into an already descending list) of an element that
originally precedes every element of the list: it goes in front of every
element of equal or smaller priority. -/
def insertDesc (x : QueuedFrame) : List QueuedFrame → List QueuedFrame
  | [] => [x]
  | y :: ys => if y.priority ≤ x.priority then x :: y :: ys else y :: insertDesc x ys

/-- Stable sort by `priority` descending: the embedding of
`sorted(queue, key=lambda x: x.priority, reverse=True)` (Python `sorted`
is stable, and so is this right-fold insertion sort, since each element is
inserted in front of all elements of equal priority, all of which follow
it in the original list). -/
def sortDesc : List QueuedFrame → List QueuedFrame
  | [] => []
  | x :: xs => insertDesc x (sortDesc xs)

/-- `deque.remove(x)`: removes the first element equal to `x` (value
equality). -/
def removeFirst : List QueuedFrame → QueuedFrame → List QueuedFrame
  | [], _ => []
  | y :: ys, x => if y = x then ys else y :: removeFirst ys x

/-- `QueueManager.get_frame()`: returns the pending frame of highest
priority (first of the stable descending sort) and removes it.
`sortDesc` is empty exactly when the queue is, so the first match arm is
the `if not self.queue: return None` early exit of the source. -/
def get_frame (m : QueueManager) : Option QueuedFrame × QueueManager :=
  match sortDesc m.queue with
  | [] => (none, m)
  | f :: _ => (some f, { m with queue := removeFirst m.queue f })

/-- `QueueManager.clear_old_frames(max_age_seconds)` at wall-clock time
`current_time`: keeps only the frames that are not too old; the rebuilt
deque carries the same `maxlen`. -/
def clear_old_frames (m : QueueManager) (current_time max_age_seconds : ℚ) :
    QueueManager :=
  { m with
      queue := m.queue.filter (fun frame => current_time - frame.timestamp ≤ max_age_seconds) }

/-- `QueueManager.record_processing_time`. -/
def record_processing_time (m : QueueManager) (processing_time : ℚ) : QueueManager :=
  { m with processing_times := dequeAppend 20 m.processing_times processing_time }

/-- `QueueManager.start_processing`. -/
def start_processing (m : QueueManager) : QueueManager :=
  { m with processing_active := true }

/-- `QueueManager.end_processing`. -/
def end_processing (m : QueueManager) : QueueManager :=
  { m with processing_active := false }

/-- One observable call on a `QueueManager`, with the wall-clock time of
the call where the source reads `time.time()`. -/
inductive QMOp where
  | addFrame (frame : QueuedFrame) (t : ℚ)
  | getFrame
  | clearOldFrames (t : ℚ) (maxAge : ℚ)
  | startProcessing
  | endProcessing
  | recordTime (x : ℚ)
  deriving Repr

/-- State reached after one call. -/
def applyOp (m : QueueManager) : QMOp → QueueManager
  | .addFrame frame t => (add_frame m frame t).2.1
  | .getFrame => (get_frame m).2
  | .clearOldFrames t maxAge => clear_old_frames m t maxAge
  | .startProcessing => start_processing m
  | .endProcessing => end_processing m
  | .recordTime x => record_processing_time m x

/-- State reached after a finite sequence of calls. -/
def runOps (m : QueueManager) (ops : List QMOp) : QueueManager :=
  ops.foldl applyOp m

/-! ### Basic preservation lemmas for `QueueManager` -/

theorem dequeAppend_length_le (maxlen : Nat) (q : List α) (x : α) :
    (dequeAppend maxlen q x).length ≤ maxlen := by
  unfold dequeAppend
  dsimp only
  split
  · omega
  · simp only [List.length_drop]
    omega

theorem removeFirst_length_le (l : List QueuedFrame) (x : QueuedFrame) :
    (removeFirst l x).length ≤ l.length := by
  induction l with
  | nil => simp [removeFirst]
  | cons y ys ih =>
    unfold removeFirst
    split
    · simp
    · simpa using Nat.succ_le_succ ih

theorem add_frame_maxSize (m : QueueManager) (f : QueuedFrame) (t : ℚ) :
    (add_frame m f t).2.1.maxSize = m.maxSize ∧
      (add_frame m f t).2.1.drop_threshold = m.drop_threshold ∧
      (add_frame m f t).2.1.processing_active = m.processing_active := by
  unfold add_frame
  dsimp only
  split
  · exact ⟨rfl, rfl, rfl⟩
  · split
    · exact ⟨rfl, rfl, rfl⟩
    · exact ⟨rfl, rfl, rfl⟩

theorem get_frame_maxSize (m : QueueManager) :
    (get_frame m).2.maxSize = m.maxSize ∧
      (get_frame m).2.drop_threshold = m.drop_threshold := by
  unfold get_frame
  split
  · exact ⟨rfl, rfl⟩
  · exact ⟨rfl, rfl⟩

theorem get_frame_queue_length (m : QueueManager) :
    (get_frame m).2.queue.length ≤ m.queue.length := by
  unfold get_frame
  split
  · exact le_refl _
  · exact removeFirst_length_le _ _

/-- The invariant of claim C1: the pending queue never exceeds the deque
bound, and the drop threshold stays below it. -/
def QMInv (m : QueueManager) : Prop :=
  m.queue.length ≤ m.maxSize ∧ m.drop_threshold ≤ m.maxSize

theorem applyOp_inv (m : QueueManager) (op : QMOp) (h : QMInv m) :
    QMInv (applyOp m op) := by
  obtain ⟨h1, h2⟩ := h
  cases op with
  | addFrame f t =>
    refine ⟨?_, ?_⟩
    · have hms := (add_frame_maxSize m f t).1
      unfold applyOp
      rw [hms]
      unfold add_frame
      dsimp only
      split
      · exact h1
      · split
        · exact h1
        · exact dequeAppend_length_le _ _ _
    · have := (add_frame_maxSize m f t).2.1
      have hms := (add_frame_maxSize m f t).1
      unfold applyOp
      rw [this, hms]
      exact h2
  | getFrame =>
    refine ⟨?_, ?_⟩
    · have hms := (get_frame_maxSize m).1
      unfold applyOp
      rw [hms]
      exact le_trans (get_frame_queue_length m) h1
    · have := (get_frame_maxSize m).2
      have hms := (get_frame_maxSize m).1
      unfold applyOp
      rw [this, hms]
      exact h2
  | clearOldFrames t maxAge =>
    exact ⟨le_trans (by simpa [applyOp, clear_old_frames] using List.length_filter_le _ _) h1, h2⟩
  | startProcessing => exact ⟨h1, h2⟩
  | endProcessing => exact ⟨h1, h2⟩
  | recordTime x => exact ⟨h1, h2⟩

theorem runOps_inv (ops : List QMOp) (m : QueueManager) (h : QMInv m) :
    QMInv (runOps m ops) := by
  induction ops generalizing m with
  | nil => exact h
  | cons op ops ih => exact ih _ (applyOp_inv m op h)

theorem applyOp_maxSize (m : QueueManager) (op : QMOp) :
    (applyOp m op).maxSize = m.maxSize := by
  cases op with
  | addFrame f t => exact (add_frame_maxSize m f t).1
  | getFrame => exact (get_frame_maxSize m).1
  | clearOldFrames t maxAge => rfl
  | startProcessing => rfl
  | endProcessing => rfl
  | recordTime x => rfl

theorem runOps_maxSize (ops : List QMOp) (m : QueueManager) :
    (runOps m ops).maxSize = m.maxSize := by
  induction ops generalizing m with
  | nil => rfl
  | cons op ops ih => exact (ih _).trans (applyOp_maxSize m op)

/-- C1.  From any initial `QueueManager(max_size, drop_threshold)` with
`drop_threshold ≤ max_size`, after every finite sequence of
`add_frame` / `get_frame` / `clear_old_frames` (and the remaining manager
calls), the pending queue holds at most `maxSize` frames and
`drop_threshold ≤ maxSize` still holds; since the sequence is arbitrary,
this is the invariant at every observation point.  The bound `maxSize`
itself never changes. -/
theorem C1_bounded_queue_invariant (max_size drop_threshold : Nat)
    (h : drop_threshold ≤ max_size) (ops : List QMOp) :
    (runOps (initQueueManager max_size drop_threshold) ops).queue.length ≤
        (runOps (initQueueManager max_size drop_threshold) ops).maxSize ∧
      (runOps (initQueueManager max_size drop_threshold) ops).drop_threshold ≤
        (runOps (initQueueManager max_size drop_threshold) ops).maxSize ∧
      (runOps (initQueueManager max_size drop_threshold) ops).maxSize = max_size := by
  have hinv := runOps_inv ops (initQueueManager max_size drop_threshold)
    ⟨by simp [initQueueManager], by simpa [initQueueManager] using h⟩
  exact ⟨hinv.1, hinv.2, runOps_maxSize _ _⟩

theorem C1_witness :
    (5 : Nat) ≤ 10 ∧
      ((runOps (initQueueManager 10 5)
          [.addFrame ⟨"a", "p", "user_defined", 1, 0⟩ 1, .getFrame]).queue.length ≤
          (runOps (initQueueManager 10 5)
            [.addFrame ⟨"a", "p", "user_defined", 1, 0⟩ 1, .getFrame]).maxSize ∧
        (runOps (initQueueManager 10 5)
            [.addFrame ⟨"a", "p", "user_defined", 1, 0⟩ 1, .getFrame]).drop_threshold ≤
          (runOps (initQueueManager 10 5)
            [.addFrame ⟨"a", "p", "user_defined", 1, 0⟩ 1, .getFrame]).maxSize ∧
        (runOps (initQueueManager 10 5)
            [.addFrame ⟨"a", "p", "user_defined", 1, 0⟩ 1, .getFrame]).maxSize = 10) :=
  ⟨by decide, C1_bounded_queue_invariant 10 5 (by decide) _⟩

/-! ### Hard backpressure and atomic rejection -/

/-- C2.  Whenever the worker is marked active and the pending queue has
reached the drop threshold, `add_frame` returns `false`.  The embedded
`add_frame` is a total function returning a `Bool`, mirroring that the
source signals rejection only through its boolean result and raises no
exception on this path. -/
theorem C2_hard_backpressure (m : QueueManager) (frame : QueuedFrame) (t : ℚ)
    (hact : m.processing_active = true) (hsz : m.drop_threshold ≤ m.queue.length) :
    (add_frame m frame t).1 = false := by
  simp [add_frame, hact, hsz]

/-- A saturated busy manager state used to exercise the rejection paths. -/
def busyManager : QueueManager :=
  { queue := [⟨"f1", "p", "user_defined", 1, 1000⟩]
    maxSize := 10
    drop_threshold := 1
    processing_times := []
    last_frame_time := 1
    min_frame_interval := 1/2
    processing_active := true }

theorem C2_witness :
    busyManager.processing_active = true ∧
      busyManager.drop_threshold ≤ busyManager.queue.length ∧
      (add_frame busyManager ⟨"f2", "p", "user_defined", 2, 0⟩ 2).1 = false :=
  ⟨rfl, by decide, C2_hard_backpressure _ _ _ rfl (by decide)⟩

/-- C10.  Rejection is atomic: whenever `add_frame` returns `false`, the
manager state (queue contents and order, `last_frame_time`,
`processing_active`, `processing_times`) is exactly the one before the
call, and the submitted frame is returned to the caller with its
`priority` field untouched. -/
theorem C10_rejection_atomic (m : QueueManager) (frame : QueuedFrame) (t : ℚ)
    (h : (add_frame m frame t).1 = false) :
    (add_frame m frame t).2.1 = m ∧ (add_frame m frame t).2.2 = frame := by
  by_cases h1 : m.processing_active ∧ m.drop_threshold ≤ m.queue.length
  · simp [add_frame, h1]
  · by_cases h2 : m.drop_threshold ≤ m.queue.length ∧
        t - m.last_frame_time <
          m.min_frame_interval * (1 + dropRateFor m.queue.length m.drop_threshold * 4)
    · simp [add_frame, h1, h2]
    · simp [add_frame, h1, h2] at h

theorem C10_witness :
    (add_frame busyManager ⟨"f3", "p", "user_defined", 3, 7⟩ 3).1 = false ∧
      (add_frame busyManager ⟨"f3", "p", "user_defined", 3, 7⟩ 3).2.1 = busyManager ∧
      (add_frame busyManager ⟨"f3", "p", "user_defined", 3, 7⟩ 3).2.2 =
        ⟨"f3", "p", "user_defined", 3, 7⟩ :=
  ⟨by decide, C10_rejection_atomic busyManager ⟨"f3", "p", "user_defined", 3, 7⟩ 3 (by decide)⟩

/-! ### Temporal shedding (claim C3)

The source has no `drop_rate > 0` guard: once `queue_size` reaches the
threshold, the interval test `time_since_last < min_frame_interval * (1 +
drop_rate * 4)` runs even when `drop_rate = 0`, so a submission arriving
within `min_frame_interval` of the last admitted frame is rejected even
at `drop_rate = 0`. -/

/-- A non-busy manager whose queue sits exactly at the drop threshold, so
that the drop rate is `0`. -/
def atThresholdManager : QueueManager :=
  { queue :=
      [⟨"a", "p", "user_defined", 1, 0⟩, ⟨"b", "p", "user_defined", 2, 0⟩,
       ⟨"c", "p", "user_defined", 3, 0⟩, ⟨"d", "p", "user_defined", 4, 0⟩,
       ⟨"e", "p", "user_defined", 5, 0⟩]
    maxSize := 10
    drop_threshold := 5
    processing_times := []
    last_frame_time := 10
    min_frame_interval := 1/2
    processing_active := false }

/-- C3, counterexample.  In `atThresholdManager` the drop rate is `0` and
the worker is not active, yet a frame submitted `0.1` seconds after the
last admitted frame is rejected — the temporal rule fires at
`dropRate = 0`, contradicting the claim that it never rejects then. -/
theorem C3_counterexample :
    calculate_drop_rate atThresholdManager = 0 ∧
      atThresholdManager.processing_active = false ∧
      (add_frame atThresholdManager ⟨"x", "p", "user_defined", 10, 0⟩ (101/10)).1 = false := by
  refine ⟨by decide, rfl, by decide⟩

/-- C3, amended.  For a call not rejected by hard backpressure, the
temporal rule rejects exactly when `len(queue) ≥ dropThreshold` and the
time since the last admitted frame is below
`minInterval * (1 + dropRate * 4)` with
`dropRate = clamp((len-dropThreshold)/dropThreshold, 0, 0.8)`; there is no
`dropRate > 0` guard, so at `dropRate = 0` (queue exactly at the
threshold) a submission within `minInterval` of the last admitted frame
is rejected. -/
theorem C3_amended_temporal_shedding (m : QueueManager) (frame : QueuedFrame) (t : ℚ)
    (hact : ¬(m.processing_active = true ∧ m.drop_threshold ≤ m.queue.length)) :
    (add_frame m frame t).1 = false ↔
      (m.drop_threshold ≤ m.queue.length ∧
        t - m.last_frame_time <
          m.min_frame_interval * (1 + calculate_drop_rate m * 4)) := by
  have hact' : ¬(m.processing_active ∧ m.drop_threshold ≤ m.queue.length) := by
    simpa using hact
  by_cases h2 : m.drop_threshold ≤ m.queue.length ∧
      t - m.last_frame_time <
        m.min_frame_interval * (1 + dropRateFor m.queue.length m.drop_threshold * 4)
  · have hrate : calculate_drop_rate m = dropRateFor m.queue.length m.drop_threshold := by
      unfold calculate_drop_rate
      rw [if_neg (by omega)]
    simp only [add_frame, if_neg hact', if_pos h2]
    rw [hrate]
    simpa using h2
  · have htrue : (add_frame m frame t).1 = true := by
      simp [add_frame, hact', h2]
    rw [htrue]
    constructor
    · intro hfalse
      exact absurd hfalse (by simp)
    · intro hc
      exfalso
      apply h2
      refine ⟨hc.1, ?_⟩
      have hrate : calculate_drop_rate m = dropRateFor m.queue.length m.drop_threshold := by
        unfold calculate_drop_rate
        have := hc.1
        rw [if_neg (by omega)]
      rw [hrate] at hc
      exact hc.2

theorem C3_amended_witness :
    ¬(atThresholdManager.processing_active = true ∧
        atThresholdManager.drop_threshold ≤ atThresholdManager.queue.length) ∧
      ((add_frame atThresholdManager ⟨"y", "p", "user_defined", 10, 0⟩ (101/10)).1 = false ↔
        (atThresholdManager.drop_threshold ≤ atThresholdManager.queue.length ∧
          101/10 - atThresholdManager.last_frame_time <
            atThresholdManager.min_frame_interval *
              (1 + calculate_drop_rate atThresholdManager * 4))) :=
  ⟨by decide, C3_amended_temporal_shedding _ _ _ (by decide)⟩

/-! ### Priority ordering (claim C4)

`add_frame` stamps an accepted frame with `priority = int(current_time * 1000)`,
so two submissions within the same millisecond receive equal priorities,
and the stable descending sort in `get_frame` then serves the older one
first. -/

/-- A sequence of `add_frame` calls: each list entry is the submitted
frame together with the wall-clock time of its call.  Returns the final
manager state and the list of boolean results in call order. -/
def submitAll : QueueManager → List (QueuedFrame × ℚ) → QueueManager × List Bool
  | m, [] => (m, [])
  | m, p :: rest =>
    let r := add_frame m p.1 p.2
    let res := submitAll r.2.1 rest
    (res.1, r.1 :: res.2)

/-- `n` successive `get_frame` calls, collecting the returned frames
(stopping early on an empty queue). -/
def drainN : Nat → QueueManager → List QueuedFrame
  | 0, _ => []
  | n + 1, m =>
    match get_frame m with
    | (none, _) => []
    | (some f, m2) => f :: drainN n m2

theorem insertDesc_of_lt (x : QueuedFrame) (l : List QueuedFrame)
    (h : ∀ y ∈ l, x.priority < y.priority) : insertDesc x l = l ++ [x] := by
  induction l with
  | nil => rfl
  | cons y ys ih =>
    have hy := h y (List.mem_cons_self _ _)
    simp only [insertDesc, if_neg (by omega : ¬ y.priority ≤ x.priority)]
    rw [ih (fun z hz => h z (List.mem_cons_of_mem _ hz))]
    rfl

theorem sortDesc_of_pairwise (l : List QueuedFrame)
    (h : l.Pairwise (fun a b => a.priority < b.priority)) : sortDesc l = l.reverse := by
  induction l with
  | nil => rfl
  | cons x xs ih =>
    have hx := (List.pairwise_cons.mp h).1
    rw [sortDesc, ih (List.pairwise_cons.mp h).2,
      insertDesc_of_lt x xs.reverse (fun y hy => hx y (List.mem_reverse.mp hy)),
      List.reverse_cons]

theorem removeFirst_append (l : List QueuedFrame) (x : QueuedFrame)
    (h : ∀ y ∈ l, y ≠ x) : removeFirst (l ++ [x]) x = l := by
  induction l with
  | nil => simp [removeFirst]
  | cons y ys ih =>
    have hy := h y (List.mem_cons_self _ _)
    simp only [List.cons_append, removeFirst, if_neg hy, List.append_eq]
    rw [ih (fun z hz => h z (List.mem_cons_of_mem _ hz))]

theorem get_frame_of_ascending (m : QueueManager) (l : List QueuedFrame) (x : QueuedFrame)
    (hq : m.queue = l ++ [x])
    (h : (l ++ [x]).Pairwise (fun a b => a.priority < b.priority)) :
    get_frame m = (some x, { m with queue := l }) := by
  have hsort : sortDesc m.queue = x :: l.reverse := by
    rw [hq, sortDesc_of_pairwise _ h, List.reverse_append]
    simp
  have hlt : ∀ y ∈ l, y.priority < x.priority := by
    intro y hy
    exact (List.pairwise_append.mp h).2.2 y hy x (List.mem_singleton.mpr rfl)
  have hne : ∀ y ∈ l, y ≠ x := by
    intro y hy heq
    exact absurd (heq ▸ hlt y hy) (lt_irrefl x.priority)
  unfold get_frame
  rw [hsort]
  dsimp only
  rw [hq, removeFirst_append l x hne]

theorem drainN_of_ascending (l : List QueuedFrame)
    (h : l.Pairwise (fun a b => a.priority < b.priority)) :
    ∀ m : QueueManager, m.queue = l → drainN l.length m = l.reverse := by
  induction l using List.reverseRecOn with
  | nil =>
    intro m _
    rfl
  | append_singleton l x ih =>
    intro m hm
    have hget := get_frame_of_ascending m l x hm h
    have hpl : l.Pairwise (fun a b => a.priority < b.priority) :=
      (List.pairwise_append.mp h).1
    rw [List.length_append, List.length_singleton]
    simp only [drainN, hget]
    rw [ih hpl { m with queue := l } rfl, List.reverse_append]
    rfl

theorem dequeAppend_of_le (maxlen : Nat) (q : List α) (x : α)
    (h : q.length + 1 ≤ maxlen) : dequeAppend maxlen q x = q ++ [x] := by
  unfold dequeAppend
  dsimp only
  rw [if_pos (by simpa using h)]

theorem add_frame_true (m : QueueManager) (f : QueuedFrame) (t : ℚ)
    (h : (add_frame m f t).1 = true) :
    (add_frame m f t).2.1 =
      { m with
          queue := dequeAppend m.maxSize m.queue { f with priority := pyInt (t * 1000) }
          last_frame_time := t } := by
  by_cases h1 : m.processing_active ∧ m.drop_threshold ≤ m.queue.length
  · simp [add_frame, h1] at h
  · by_cases h2 : m.drop_threshold ≤ m.queue.length ∧
        t - m.last_frame_time <
          m.min_frame_interval * (1 + dropRateFor m.queue.length m.drop_threshold * 4)
    · simp [add_frame, h1, h2] at h
    · simp [add_frame, h1, h2]

theorem submitAll_all_true (subs : List (QueuedFrame × ℚ)) :
    ∀ m : QueueManager,
      m.queue.length + subs.length ≤ m.maxSize →
      (submitAll m subs).2 = List.replicate subs.length true →
      (submitAll m subs).1.queue =
        m.queue ++ subs.map (fun p => { p.1 with priority := pyInt (p.2 * 1000) }) := by
  induction subs with
  | nil =>
    intro m _ _
    simp [submitAll]
  | cons p rest ih =>
    intro m hlen hacc
    simp only [List.length_cons] at hlen
    simp only [submitAll, List.length_cons, List.replicate_succ] at hacc ⊢
    have h1 : (add_frame m p.1 p.2).1 = true := by
      have := congrArg (fun l => l.headI) hacc
      simpa using this
    have h2 : (submitAll (add_frame m p.1 p.2).2.1 rest).2 = List.replicate rest.length true := by
      have := congrArg (fun l => l.tail) hacc
      simpa using this
    have hms : (add_frame m p.1 p.2).2.1.maxSize = m.maxSize := (add_frame_maxSize m p.1 p.2).1
    have hq1 : (add_frame m p.1 p.2).2.1.queue =
        m.queue ++ [{ p.1 with priority := pyInt (p.2 * 1000) }] := by
      rw [add_frame_true m p.1 p.2 h1]
      exact dequeAppend_of_le _ _ _ (by omega)
    have hrest := ih (add_frame m p.1 p.2).2.1
      (by rw [hq1, hms]; simp only [List.length_append, List.length_singleton]; omega) h2
    rw [hrest, hq1, List.map_cons]
    simp [List.append_assoc]

/-- Two overload frames submitted a tenth of a millisecond apart. -/
def frameA : QueuedFrame := ⟨"A", "p", "user_defined", 1/10000, 0⟩

def frameB : QueuedFrame := ⟨"B", "p", "user_defined", 2/10000, 0⟩

/-- C4, counterexample.  Frames submitted at strictly increasing times
`0.0001 < 0.0002` are both accepted, yet the first `get_frame` returns
the frame submitted at `t1` (both collapse to `priority = int(t*1000) = 0`
and the stable descending sort serves the older tie first), not the frame
submitted at `t2` as the claim requires. -/
theorem C4_counterexample :
    (1 : ℚ)/10000 < 2/10000 ∧
      (submitAll (initQueueManager 10 5) [(frameA, 1/10000), (frameB, 2/10000)]).2 =
        [true, true] ∧
      (get_frame
          (submitAll (initQueueManager 10 5) [(frameA, 1/10000), (frameB, 2/10000)]).1).1 =
        some frameA := by
  refine ⟨by decide, by decide, by decide⟩

/-- C4, amended.  If `n` frames are submitted at strictly increasing
timestamps that moreover fall in pairwise distinct milliseconds (their
stamped priorities `int(t*1000)` are strictly increasing), `n ≤ maxSize`
and all are accepted, then `n` successive `get_frame` calls return them
in reverse order of submission (each frame carrying its stamped
priority). -/
theorem C4_amended_priority_ordering (max_size drop_threshold : Nat)
    (subs : List (QueuedFrame × ℚ))
    (hn : subs.length ≤ max_size)
    (hmono : (subs.map (fun p => pyInt (p.2 * 1000))).Pairwise (· < ·))
    (hacc : (submitAll (initQueueManager max_size drop_threshold) subs).2 =
      List.replicate subs.length true) :
    drainN subs.length (submitAll (initQueueManager max_size drop_threshold) subs).1 =
      (subs.map (fun p => { p.1 with priority := pyInt (p.2 * 1000) })).reverse := by
  have hqueue : (submitAll (initQueueManager max_size drop_threshold) subs).1.queue =
      subs.map (fun p => { p.1 with priority := pyInt (p.2 * 1000) }) := by
    have := submitAll_all_true subs (initQueueManager max_size drop_threshold)
      (by simpa [initQueueManager] using hn) hacc
    simpa [initQueueManager] using this
  have hpw : (subs.map (fun p => { p.1 with priority := pyInt (p.2 * 1000) })).Pairwise
      (fun a b => a.priority < b.priority) := by
    rw [List.pairwise_map]
    simpa [List.pairwise_map] using hmono
  have hlen : subs.length =
      (subs.map (fun p => { p.1 with priority := pyInt (p.2 * 1000) })).length := by
    rw [List.length_map]
  rw [hlen]
  exact drainN_of_ascending _ hpw _ hqueue

theorem C4_amended_witness :
    ([(frameA, (1 : ℚ)), (frameB, 2)].length ≤ 10 ∧
      ([(frameA, (1 : ℚ)), (frameB, 2)].map (fun p => pyInt (p.2 * 1000))).Pairwise (· < ·) ∧
      (submitAll (initQueueManager 10 5) [(frameA, 1), (frameB, 2)]).2 =
        List.replicate 2 true) ∧
      drainN 2 (submitAll (initQueueManager 10 5) [(frameA, 1), (frameB, 2)]).1 =
        ([(frameA, (1 : ℚ)), (frameB, 2)].map
          (fun p => { p.1 with priority := pyInt (p.2 * 1000) })).reverse :=
  ⟨⟨by decide, by decide, by decide⟩,
    C4_amended_priority_ordering 10 5 [(frameA, 1), (frameB, 2)]
      (by decide) (by decide) (by decide)⟩

/-! ### Overload behaviour while processing is active (claim C7) -/

theorem add_frame_active_reject (m : QueueManager) (f : QueuedFrame) (t : ℚ)
    (hact : m.processing_active = true) (h : m.drop_threshold ≤ m.queue.length) :
    add_frame m f t = (false, m, f) := by
  simp [add_frame, hact, h]

theorem add_frame_accept_of_lt (m : QueueManager) (f : QueuedFrame) (t : ℚ)
    (h : m.queue.length < m.drop_threshold) :
    (add_frame m f t).1 = true ∧
      (add_frame m f t).2.1 =
        { m with
            queue := dequeAppend m.maxSize m.queue { f with priority := pyInt (t * 1000) }
            last_frame_time := t } := by
  have h1 : ¬(m.processing_active ∧ m.drop_threshold ≤ m.queue.length) := by
    rintro ⟨-, hle⟩
    omega
  have h2 : ¬(m.drop_threshold ≤ m.queue.length ∧
      t - m.last_frame_time <
        m.min_frame_interval * (1 + dropRateFor m.queue.length m.drop_threshold * 4)) := by
    rintro ⟨hle, -⟩
    omega
  constructor
  · simp [add_frame, h1, h2]
  · simp [add_frame, h1, h2]

/-- While `processing_active` holds, a submission is accepted exactly
when the queue is still below the drop threshold, so a run of
submissions from a queue at level `≤ dropThreshold` accepts exactly the
first `dropThreshold - level` of them and rejects the rest, never
evicting anything; afterwards the queue sits at
`min (level + n) dropThreshold`. -/
theorem submitAll_active (subs : List (QueuedFrame × ℚ)) :
    ∀ m : QueueManager, m.processing_active = true →
      m.queue.length ≤ m.drop_threshold →
      m.drop_threshold ≤ m.maxSize →
      (submitAll m subs).2 =
          List.replicate (min subs.length (m.drop_threshold - m.queue.length)) true ++
            List.replicate (subs.length - (m.drop_threshold - m.queue.length)) false ∧
        (submitAll m subs).1.queue.length = min (m.queue.length + subs.length) m.drop_threshold ∧
        (submitAll m subs).1.processing_active = true ∧
        (submitAll m subs).1.drop_threshold = m.drop_threshold ∧
        (submitAll m subs).1.maxSize = m.maxSize := by
  induction subs with
  | nil =>
    intro m hact hlev hdt
    refine ⟨?_, ?_, hact, rfl, rfl⟩
    · simp [submitAll]
    · simp only [submitAll, List.length_nil, Nat.add_zero]
      omega
  | cons p rest ih =>
    intro m hact hlev hdt
    by_cases hk : m.queue.length < m.drop_threshold
    · -- still below the threshold: the head submission is accepted
      obtain ⟨hres, hst⟩ := add_frame_accept_of_lt m p.1 p.2 hk
      have hq1 : (add_frame m p.1 p.2).2.1.queue =
          m.queue ++ [{ p.1 with priority := pyInt (p.2 * 1000) }] := by
        rw [hst]
        exact dequeAppend_of_le _ _ _ (by omega)
      have hlen1 : (add_frame m p.1 p.2).2.1.queue.length = m.queue.length + 1 := by
        rw [hq1]
        simp
      have hfields : (add_frame m p.1 p.2).2.1.processing_active = true ∧
          (add_frame m p.1 p.2).2.1.drop_threshold = m.drop_threshold ∧
          (add_frame m p.1 p.2).2.1.maxSize = m.maxSize := by
        rw [hst]
        exact ⟨hact, rfl, rfl⟩
      have hrec := ih (add_frame m p.1 p.2).2.1
        (by rw [hfields.1]) (by rw [hlen1, hfields.2.1]; omega)
        (by rw [hfields.2.1, hfields.2.2]; exact hdt)
      obtain ⟨hr1, hr2, hr3, hr4, hr5⟩ := hrec
      simp only [submitAll, List.length_cons]
      refine ⟨?_, ?_, hr3, by rw [hr4, hfields.2.1], by rw [hr5, hfields.2.2]⟩
      · rw [hres, hr1, hlen1, hfields.2.1]
        have e1 : min (rest.length + 1) (m.drop_threshold - m.queue.length) =
            min rest.length (m.drop_threshold - (m.queue.length + 1)) + 1 := by omega
        have e2 : rest.length + 1 - (m.drop_threshold - m.queue.length) =
            rest.length - (m.drop_threshold - (m.queue.length + 1)) := by omega
        rw [e1, e2, List.replicate_succ, List.cons_append]
      · rw [hr2, hlen1, hfields.2.1]
        omega
    · -- the queue already sits at the threshold: rejected, state unchanged
      have hge : m.drop_threshold ≤ m.queue.length := by omega
      have hrej := add_frame_active_reject m p.1 p.2 hact hge
      have hrec := ih m hact hlev hdt
      obtain ⟨hr1, hr2, hr3, hr4, hr5⟩ := hrec
      simp only [submitAll, List.length_cons, hrej]
      refine ⟨?_, ?_, hr3, hr4, hr5⟩
      · rw [hr1]
        have hkd : m.drop_threshold - m.queue.length = 0 := by omega
        rw [hkd]
        simp [List.replicate_succ]
      · rw [hr2]
        omega

theorem insertDesc_length (x : QueuedFrame) (l : List QueuedFrame) :
    (insertDesc x l).length = l.length + 1 := by
  induction l with
  | nil => rfl
  | cons y ys ih =>
    simp only [insertDesc]
    split
    · simp
    · simp [ih]

theorem sortDesc_length (l : List QueuedFrame) : (sortDesc l).length = l.length := by
  induction l with
  | nil => rfl
  | cons x xs ih => simp [sortDesc, insertDesc_length, ih]

theorem mem_insertDesc {x y : QueuedFrame} {l : List QueuedFrame}
    (h : y ∈ insertDesc x l) : y = x ∨ y ∈ l := by
  induction l with
  | nil =>
    simp only [insertDesc, List.mem_singleton] at h
    exact Or.inl h
  | cons z zs ih =>
    simp only [insertDesc] at h
    split at h
    · rcases List.mem_cons.mp h with h1 | h2
      · exact Or.inl h1
      · exact Or.inr h2
    · rcases List.mem_cons.mp h with h1 | h2
      · exact Or.inr (h1 ▸ List.mem_cons_self _ _)
      · rcases ih h2 with h3 | h4
        · exact Or.inl h3
        · exact Or.inr (List.mem_cons_of_mem _ h4)

theorem mem_of_mem_sortDesc {y : QueuedFrame} {l : List QueuedFrame}
    (h : y ∈ sortDesc l) : y ∈ l := by
  induction l with
  | nil => simp [sortDesc] at h
  | cons x xs ih =>
    simp only [sortDesc] at h
    rcases mem_insertDesc h with h1 | h2
    · exact h1 ▸ List.mem_cons_self _ _
    · exact List.mem_cons_of_mem _ (ih h2)

theorem removeFirst_length_of_mem {x : QueuedFrame} {l : List QueuedFrame}
    (h : x ∈ l) : (removeFirst l x).length = l.length - 1 := by
  induction l with
  | nil => cases h
  | cons y ys ih =>
    simp only [removeFirst]
    by_cases he : y = x
    · rw [if_pos he]
      simp
    · rw [if_neg he]
      have hx : x ∈ ys := by
        rcases List.mem_cons.mp h with h1 | h2
        · exact absurd h1.symm he
        · exact h2
      have hpos : 1 ≤ ys.length := List.length_pos.mpr (List.ne_nil_of_mem hx)
      simp only [List.length_cons, ih hx]
      omega

theorem get_frame_of_ne_nil (m : QueueManager) (h : m.queue ≠ []) :
    (get_frame m).1.isSome ∧ (get_frame m).2.queue.length = m.queue.length - 1 ∧
      (get_frame m).2.processing_active = m.processing_active ∧
      (get_frame m).2.drop_threshold = m.drop_threshold ∧
      (get_frame m).2.maxSize = m.maxSize := by
  cases hs : sortDesc m.queue with
  | nil =>
    have hlen := sortDesc_length m.queue
    rw [hs] at hlen
    exact absurd (List.length_eq_zero.mp hlen.symm) h
  | cons f rest =>
    have hmem : f ∈ m.queue :=
      mem_of_mem_sortDesc (by rw [hs]; exact List.mem_cons_self f rest)
    unfold get_frame
    rw [hs]
    exact ⟨rfl, removeFirst_length_of_mem hmem, rfl, rfl, rfl⟩

/-- Fifteen rapid submissions (`maxSize + 5` for the default
`QueueManager(10, 5)` geometry). -/
def overloadSubs : List (QueuedFrame × ℚ) :=
  (List.range 15).map (fun i => (frameA, (i : ℚ)))

/-- C7, counterexample.  Submitting `maxSize + 5 = 15` frames while
`processing_active` is true accepts exactly `drop_threshold = 5` frames,
not `maxSize = 10` as the claim expects: hard backpressure caps the
queue at the drop threshold, and no eviction ever happens. -/
theorem C7_counterexample :
    overloadSubs.length = 10 + 5 ∧
      (submitAll (start_processing (initQueueManager 10 5)) overloadSubs).2.count true = 5 ∧
      ¬((submitAll (start_processing (initQueueManager 10 5)) overloadSubs).2.count true =
          (initQueueManager 10 5).maxSize) := by
  refine ⟨by decide, by decide, by decide⟩

/-- C7, amended.  Submitting `maxSize + 5` frames (at arbitrary times)
while `processing_active` is true accepts exactly the first
`dropThreshold` of them and rejects the remaining `maxSize + 5 -
dropThreshold` (at least 5, with nothing evicted); after
`end_processing` and one `get_frame`, the next submission is accepted. -/
theorem C7_amended_overload_then_drain (max_size drop_threshold : Nat)
    (subs : List (QueuedFrame × ℚ)) (f : QueuedFrame) (t : ℚ)
    (h1 : 1 ≤ drop_threshold) (h2 : drop_threshold ≤ max_size)
    (hlen : subs.length = max_size + 5) :
    (submitAll (start_processing (initQueueManager max_size drop_threshold)) subs).2 =
        List.replicate drop_threshold true ++
          List.replicate (max_size + 5 - drop_threshold) false ∧
      (add_frame
          (get_frame
            (end_processing
              (submitAll (start_processing (initQueueManager max_size drop_threshold))
                subs).1)).2
          f t).1 = true := by
  have h0a : (start_processing (initQueueManager max_size drop_threshold)).processing_active =
      true := rfl
  have h0q : (start_processing (initQueueManager max_size drop_threshold)).queue.length = 0 :=
    rfl
  have h0d : (start_processing (initQueueManager max_size drop_threshold)).drop_threshold =
      drop_threshold := rfl
  have h0m : (start_processing (initQueueManager max_size drop_threshold)).maxSize =
      max_size := rfl
  obtain ⟨hr1, hr2, hr3, hr4, hr5⟩ :=
    submitAll_active subs (start_processing (initQueueManager max_size drop_threshold))
      h0a (by rw [h0q]; omega) (by rw [h0d, h0m]; exact h2)
  constructor
  · rw [hr1, h0q, h0d]
    have e1 : min subs.length (drop_threshold - 0) = drop_threshold := by omega
    have e2 : subs.length - (drop_threshold - 0) = max_size + 5 - drop_threshold := by omega
    rw [e1, e2]
  · have hMq : (submitAll (start_processing (initQueueManager max_size drop_threshold))
        subs).1.queue.length = drop_threshold := by
      rw [hr2, h0q, h0d]
      omega
    have hMd : (submitAll (start_processing (initQueueManager max_size drop_threshold))
        subs).1.drop_threshold = drop_threshold := by rw [hr4, h0d]
    have hne : (end_processing
        (submitAll (start_processing (initQueueManager max_size drop_threshold))
          subs).1).queue ≠ [] := by
      intro hnil
      have : (end_processing
          (submitAll (start_processing (initQueueManager max_size drop_threshold))
            subs).1).queue.length = drop_threshold := hMq
      rw [hnil] at this
      simp at this
      omega
    obtain ⟨-, hg2, -, hg4, -⟩ := get_frame_of_ne_nil _ hne
    apply (add_frame_accept_of_lt _ f t ?_).1
    rw [hg2, hg4]
    have : (end_processing
        (submitAll (start_processing (initQueueManager max_size drop_threshold))
          subs).1).queue.length = drop_threshold := hMq
    rw [this]
    have : (end_processing
        (submitAll (start_processing (initQueueManager max_size drop_threshold))
          subs).1).drop_threshold = drop_threshold := hMd
    rw [this]
    omega

theorem C7_amended_witness :
    ((1 : Nat) ≤ 5 ∧ (5 : Nat) ≤ 10 ∧ overloadSubs.length = 10 + 5) ∧
      ((submitAll (start_processing (initQueueManager 10 5)) overloadSubs).2 =
          List.replicate 5 true ++ List.replicate (10 + 5 - 5) false ∧
        (add_frame
            (get_frame
              (end_processing
                (submitAll (start_processing (initQueueManager 10 5)) overloadSubs).1)).2
            frameB 99).1 = true) :=
  ⟨⟨by decide, by decide, by decide⟩,
    C7_amended_overload_then_drain 10 5 overloadSubs frameB 99
      (by decide) (by decide) (by decide)⟩

/-! ### SSE connection manager (`apps/api/sse_manager.py`) -/

/-- A broadcast event as built by `SSEConnectionManager.broadcast`:
`{"event": event_type, "data": json.dumps(data)}`; the serialized payload
is kept abstract as a string. -/
structure SSEEvent where
  event : String
  data : String
  deriving DecidableEq, Repr

/-- An `asyncio.Queue(maxsize)` of events.  In asyncio, `maxsize <= 0`
means the queue is unbounded; `put_nowait` raises `QueueFull` exactly
when `0 < maxsize <= qsize()`. -/
structure PyQueue where
  maxsize : Nat
  items : List SSEEvent
  deriving DecidableEq, Repr

/-- `asyncio.Queue.full()`. -/
def PyQueue.full (q : PyQueue) : Bool :=
  0 < q.maxsize && q.maxsize ≤ q.items.length

/-- The registry `_connections : Dict[str, asyncio.Queue]`, in insertion
order. -/
structure SSEConnectionManager where
  connections : List (String × PyQueue)
  deriving DecidableEq, Repr

/-- The fresh outbox built by `SSEConnectionManager.connect`:
`asyncio.Queue()` with the default `maxsize = 0`, i.e. unbounded. -/
def connectQueue : PyQueue :=
  { maxsize := 0, items := [] }

/-- `SSEConnectionManager.connect`, with the generated uuid supplied as
`client_id`: registers a fresh unbounded outbox for the new client (the
streaming response itself is not modelled). -/
def connect (m : SSEConnectionManager) (client_id : String) : SSEConnectionManager :=
  { connections := m.connections ++ [(client_id, connectQueue)] }

/-- `SSEConnectionManager.disconnect`: `if client_id in self._connections:
del self._connections[client_id]`. -/
def disconnect (m : SSEConnectionManager) (client_id : String) : SSEConnectionManager :=
  if m.connections.any (fun p => p.1 = client_id) then
    { connections := m.connections.filter (fun p => p.1 ≠ client_id) }
  else m

/-- `SSEConnectionManager.connection_count`. -/
def connection_count (m : SSEConnectionManager) : Nat :=
  m.connections.length

/-- `SSEConnectionManager.broadcast`: early return on an empty registry;
then one non-blocking `put_nowait` per registered connection (a full
outbox is left unchanged and its client collected), and finally
`disconnect` on every collected client. -/
def broadcast (m : SSEConnectionManager) (event_type data : String) : SSEConnectionManager :=
  if m.connections = [] then m
  else
    let event : SSEEvent := { event := event_type, data := data }
    let updated := m.connections.map (fun p =>
      if p.2.full then p else (p.1, { p.2 with items := p.2.items ++ [event] }))
    let disconnected := (m.connections.filter (fun p => p.2.full)).map Prod.fst
    disconnected.foldl disconnect { connections := updated }

theorem disconnect_of_absent (m : SSEConnectionManager) (c : String)
    (h : m.connections.any (fun p => p.1 = c) = false) : disconnect m c = m := by
  simp only [disconnect, h]
  simp

theorem disconnect_any_false (m : SSEConnectionManager) (c : String) :
    (disconnect m c).connections.any (fun p => p.1 = c) = false := by
  unfold disconnect
  split
  · simp only
    rw [Bool.eq_false_iff]
    intro hany
    rcases List.any_eq_true.mp hany with ⟨p, hp, hc⟩
    have := List.of_mem_filter hp
    simp at this hc
    exact this hc
  · rename_i h
    exact Bool.eq_false_iff.mpr h

/-- C9.  `disconnect` is idempotent: a second call with the same id is a
no-op (same registry, same connection count), and a call with a
never-registered id leaves the manager unchanged.  The embedded
`disconnect` is total: the `in` guard means the absent-id case returns
normally rather than raising `KeyError`. -/
theorem C9_disconnect_idempotent (m : SSEConnectionManager) (c : String) :
    disconnect (disconnect m c) c = disconnect m c ∧
      connection_count (disconnect (disconnect m c) c) = connection_count (disconnect m c) ∧
      ((∀ p ∈ m.connections, p.1 ≠ c) → disconnect m c = m) := by
  have h1 : disconnect (disconnect m c) c = disconnect m c :=
    disconnect_of_absent _ _ (disconnect_any_false m c)
  refine ⟨h1, by rw [h1], ?_⟩
  intro habs
  apply disconnect_of_absent
  rw [Bool.eq_false_iff]
  intro hany
  rcases List.any_eq_true.mp hany with ⟨p, hp, hc⟩
  exact habs p hp (by simpa using hc)

theorem C9_witness :
    disconnect (disconnect (connect (connect { connections := [] } "A") "B") "A") "A" =
        disconnect (connect (connect { connections := [] } "A") "B") "A" ∧
      (∀ p ∈ (connect { connections := [] } "A").connections, p.1 ≠ "ghost") ∧
      disconnect (connect { connections := [] } "A") "ghost" =
        connect { connections := [] } "A" :=
  ⟨(C9_disconnect_idempotent (connect (connect { connections := [] } "A") "B") "A").1,
    by decide,
    (C9_disconnect_idempotent (connect { connections := [] } "A") "ghost").2.2 (by decide)⟩

/-! ### Fan-out isolation (claim C6)

`connect` builds its outbox with `asyncio.Queue()`, whose default
`maxsize` is `0`, i.e. **unbounded**: such an outbox is never full, so
`put_nowait` never raises for it and `broadcast` never disconnects a
client whose outbox came from `connect`.  The removal-on-full path of
`broadcast` is reachable only for a bounded queue. -/

/-- A filler event. -/
def sseFiller : SSEEvent :=
  { event := "motion", data := "old" }

/-- Two connected clients; client A already has five undelivered events
sitting in its (unbounded) outbox. -/
def twoClientManager : SSEConnectionManager :=
  { connections :=
      [("A", { maxsize := 0, items := List.replicate 5 sseFiller }),
       ("B", { maxsize := 0, items := [] })] }

/-- C6, counterexample.  The outbox created by `connect` is unbounded
(`maxsize = 0`), so it has no capacity to fill: however many events are
stuffed into client A's outbox, a broadcast still delivers to A and does
not disconnect it (here both A and B stay registered and both receive
the event), contradicting the claimed bounded outbox and the claimed
disconnect-A scenario. -/
theorem C6_counterexample :
    connectQueue.maxsize = 0 ∧
      (connect { connections := [] } "A").connections = [("A", connectQueue)] ∧
      (broadcast twoClientManager "motion_event" "d").connections =
        [("A", { maxsize := 0,
                 items := List.replicate 5 sseFiller ++ [⟨"motion_event", "d"⟩] }),
         ("B", { maxsize := 0, items := [⟨"motion_event", "d"⟩] })] := by
  refine ⟨rfl, rfl, by decide⟩

/-- C6, amended.  `connect` creates an *unbounded* outbox; on every
`broadcast`, each registered connection receives a non-blocking enqueue
attempt of the same event, and a registered connection whose (bounded)
outbox is full is removed from the registry rather than blocking or
preventing delivery: with two registered clients where A's outbox is
full and B's is not, broadcasting disconnects A while B still receives
the event. -/
theorem C6_amended_fanout_isolation (a b : String) (qa qb : PyQueue)
    (event_type data : String)
    (hab : a ≠ b) (hfa : qa.full = true) (hfb : qb.full = false) :
    connectQueue.maxsize = 0 ∧
      broadcast { connections := [(a, qa), (b, qb)] } event_type data =
        { connections :=
            [(b, { qb with items := qb.items ++ [⟨event_type, data⟩] })] } := by
  refine ⟨rfl, ?_⟩
  have hba : ¬(b = a) := fun h => hab h.symm
  simp [broadcast, disconnect, hfa, hfb, hba]

theorem C6_amended_witness :
    (("A" : String) ≠ "B" ∧
      (PyQueue.full { maxsize := 1, items := [sseFiller] }) = true ∧
      (PyQueue.full connectQueue) = false) ∧
      (connectQueue.maxsize = 0 ∧
        broadcast
            { connections := [("A", { maxsize := 1, items := [sseFiller] }),
                              ("B", connectQueue)] }
            "motion_event" "d" =
          { connections :=
              [("B", { connectQueue with items := connectQueue.items ++ [⟨"motion_event", "d"⟩] })] }) :=
  ⟨⟨by decide, by decide, by decide⟩,
    C6_amended_fanout_isolation "A" "B" { maxsize := 1, items := [sseFiller] } connectQueue
      "motion_event" "d" (by decide) (by decide) (by decide)⟩

/-! ### AI processor (`apps/api/ai_processor.py`) -/

/-- Python `f"{q:.1f}"` for a non-negative number: one decimal digit,
rounding half up (float formatting may differ on exact ties, which no
claim depends on). -/
def fmt1 (q : ℚ) : String :=
  let n : Nat := (⌊q * 10 + 1/2⌋).toNat
  toString (n / 10) ++ "." ++ toString (n % 10)

/-- Python `round(q, 2)`: round to two decimal places, ties to even. -/
def pyRound2 (q : ℚ) : ℚ :=
  let x := q * 100
  let f : ℤ := ⌊x⌋
  if x - f < 1/2 then (f : ℚ) / 100
  else if 1/2 < x - f then ((f + 1 : ℤ) : ℚ) / 100
  else if f % 2 = 0 then (f : ℚ) / 100
  else ((f + 1 : ℤ) : ℚ) / 100

/-- Outcome of one LLaVA transport attempt, the environment of
`process_frame_with_llava`: an HTTP reply (status code and the parsed
`response` text), an `httpx.TimeoutException`, or any other exception. -/
inductive LlavaOutcome where
  | ok (status : Nat) (response : String)
  | timeout
  | exc (msg : String)
  deriving DecidableEq, Repr

/-- The analysis-result dictionary returned by
`process_frame_with_llava` (`error = none` on the success shape, where
the source dict carries no `error` key). -/
structure LlavaResult where
  success : Bool
  description : String
  confidence : ℚ
  error : Option String
  deriving DecidableEq, Repr

/-- Lines 143-148 of the source: confidence synthesized from the
response quality (`if description and len(description) > 30`). -/
def synthConfidence (description : String) (motion_strength : ℚ) : ℚ :=
  if description ≠ "" ∧ 30 < description.length then
    pyMin (19/20) (7/10 + motion_strength / 100 * (1/4))
  else
    1/2

/-- `AIProcessor.process_frame_with_llava`, as a function of the
transport outcome.  Every branch — including both exception handlers —
returns a result dictionary; no exception escapes. -/
def process_frame_with_llava (outcome : LlavaOutcome) (motion_strength : ℚ) : LlavaResult :=
  match outcome with
  | .ok status response =>
    if status = 200 then
      let description := response.trim
      let confidence := synthConfidence description motion_strength
      { success := true
        description :=
          if description ≠ "" then description
          else "Motion detected (" ++ fmt1 motion_strength ++ "% strength)"
        confidence := pyRound2 confidence
        error := none }
    else
      { success := false
        description := "AI analysis unavailable (motion: " ++ fmt1 motion_strength ++ "%)"
        confidence := 1/2
        error := some ("HTTP " ++ toString status) }
  | .timeout =>
    { success := false
      description := "Analysis timeout (motion: " ++ fmt1 motion_strength ++ "%)"
      confidence := 1/2
      error := some "Timeout" }
  | .exc msg =>
    { success := false
      description := "Analysis failed (motion: " ++ fmt1 motion_strength ++ "%)"
      confidence := 1/2
      error := some msg }

/-- One job taken from the Redis processing queue by the worker. -/
structure AnalysisJob where
  frame_id : String
  frame_data : String
  motion_strength : ℚ
  websocket_id : String
  deriving DecidableEq, Repr

/-- The `data` payload of the message the worker publishes on the
results channel for one job (the wall-clock `processing_time` and
`timestamp` fields are not modelled). -/
structure PublishedAnalysis where
  frame_id : String
  description : String
  confidence : ℚ
  websocket_id : String
  deriving DecidableEq, Repr

/-- One iteration of `AIProcessor.worker` for a dequeued job whose
analysis attempt ends in `outcome`: the analysis result is converted
into a published message; no branch raises. -/
def workerStep (job : AnalysisJob) (outcome : LlavaOutcome) : PublishedAnalysis :=
  let result := process_frame_with_llava outcome job.motion_strength
  { frame_id := job.frame_id
    description := result.description
    confidence := result.confidence
    websocket_id := job.websocket_id }

/-- The worker loop over a finite job trace: one published message per
dequeued job, in order; the loop never terminates on an analysis
failure. -/
def workerRun (jobs : List (AnalysisJob × LlavaOutcome)) : List PublishedAnalysis :=
  jobs.map (fun p => workerStep p.1 p.2)

theorem pyRound2_half : pyRound2 (1/2) = 1/2 := by decide

/-- C5.  For a `200` analysis reply whose stripped description exceeds
the 30-character threshold and any `motion_strength` in `[0, 100]`, the
synthesized confidence is exactly `min(0.95, 0.7 + motion_strength/100 * 0.25)`
and lies in `[0.7, 0.95]` (the returned dictionary stores it rounded to
two decimals); for an empty or short description the confidence is
exactly `0.5`. -/
theorem C5_confidence_bound (response : String) (motion_strength : ℚ)
    (h0 : 0 ≤ motion_strength) (h100 : motion_strength ≤ 100) :
    (30 < response.trim.length →
      synthConfidence response.trim motion_strength =
          pyMin (19/20) (7/10 + motion_strength / 100 * (1/4)) ∧
        7/10 ≤ synthConfidence response.trim motion_strength ∧
        synthConfidence response.trim motion_strength ≤ 19/20 ∧
        (process_frame_with_llava (.ok 200 response) motion_strength).confidence =
          pyRound2 (synthConfidence response.trim motion_strength)) ∧
      (response.trim.length ≤ 30 →
        synthConfidence response.trim motion_strength = 1/2 ∧
        (process_frame_with_llava (.ok 200 response) motion_strength).confidence = 1/2) := by
  constructor
  · intro hlen
    have hne : response.trim ≠ "" := by
      intro he
      rw [he] at hlen
      simp at hlen
    have heq : synthConfidence response.trim motion_strength =
        pyMin (19/20) (7/10 + motion_strength / 100 * (1/4)) := by
      unfold synthConfidence
      rw [if_pos ⟨hne, hlen⟩]
    have hx0 : 0 ≤ motion_strength / 100 * (1/4) := by positivity
    have hbounds : 7/10 ≤ pyMin (19/20) (7/10 + motion_strength / 100 * (1/4)) ∧
        pyMin (19/20) (7/10 + motion_strength / 100 * (1/4)) ≤ 19/20 := by
      unfold pyMin
      split
      · constructor
        · norm_num
        · norm_num
      · rename_i hlt
        push_neg at hlt
        constructor
        · linarith
        · linarith
    refine ⟨heq, ?_, ?_, ?_⟩
    · rw [heq]
      exact hbounds.1
    · rw [heq]
      exact hbounds.2
    · simp [process_frame_with_llava]
  · intro hlen
    have heq : synthConfidence response.trim motion_strength = 1/2 := by
      unfold synthConfidence
      rw [if_neg ?_]
      rintro ⟨-, h⟩
      omega
    refine ⟨heq, ?_⟩
    rw [show (process_frame_with_llava (.ok 200 response) motion_strength).confidence =
        pyRound2 (synthConfidence response.trim motion_strength) from by
      simp [process_frame_with_llava]]
    rw [heq]
    exact pyRound2_half

theorem C5_witness :
    ((0 : ℚ) ≤ 50 ∧ (50 : ℚ) ≤ 100) ∧
      ((30 < ("0123456789012345678901234567890123456789" : String).trim.length →
        synthConfidence ("0123456789012345678901234567890123456789" : String).trim 50 =
            pyMin (19/20) (7/10 + 50 / 100 * (1/4)) ∧
          7/10 ≤ synthConfidence ("0123456789012345678901234567890123456789" : String).trim 50 ∧
          synthConfidence ("0123456789012345678901234567890123456789" : String).trim 50 ≤ 19/20 ∧
          (process_frame_with_llava (.ok 200 "0123456789012345678901234567890123456789") 50).confidence =
            pyRound2 (synthConfidence ("0123456789012345678901234567890123456789" : String).trim 50)) ∧
        (("0123456789012345678901234567890123456789" : String).trim.length ≤ 30 →
          synthConfidence ("0123456789012345678901234567890123456789" : String).trim 50 = 1/2 ∧
          (process_frame_with_llava (.ok 200 "0123456789012345678901234567890123456789") 50).confidence = 1/2)) :=
  ⟨⟨by decide, by decide⟩,
    C5_confidence_bound "0123456789012345678901234567890123456789" 50 (by decide) (by decide)⟩

/-! ### Worker failure recovery (claim C8)

`process_frame_with_llava` catches `httpx.TimeoutException` and every
other exception and returns a failure-shaped dictionary, so the worker
loop never sees an exception from an analysis call; but the error kind
it records for a timeout is the string `"Timeout"`, not `"timeout"`. -/

/-- C8, counterexample.  The failure result published for a timed-out
analysis carries `error = "Timeout"` (capitalized), not `"timeout"` as
the claim states. -/
theorem C8_counterexample :
    (process_frame_with_llava .timeout 50).error = some "Timeout" ∧
      (process_frame_with_llava .timeout 50).error ≠ some "timeout" := by
  refine ⟨rfl, by decide⟩

/-- C8, amended.  The worker converts every analysis transport failure
into a published failure-shaped result and keeps looping: it publishes
exactly one message per dequeued job; a timeout yields a result with
`success = False`, error kind `"Timeout"` and a description mentioning
the original motion strength; any other exception likewise yields a
failure result carrying the exception text. -/
theorem C8_amended_timeout_recovery (jobs : List (AnalysisJob × LlavaOutcome)) :
    (workerRun jobs).length = jobs.length ∧
      (∀ p ∈ jobs, p.2 = .timeout →
        (process_frame_with_llava p.2 p.1.motion_strength).success = false ∧
          (process_frame_with_llava p.2 p.1.motion_strength).error = some "Timeout" ∧
          (workerStep p.1 p.2).description =
            "Analysis timeout (motion: " ++ fmt1 p.1.motion_strength ++ "%)") ∧
      (∀ p ∈ jobs, ∀ msg, p.2 = .exc msg →
        (process_frame_with_llava p.2 p.1.motion_strength).success = false ∧
          (process_frame_with_llava p.2 p.1.motion_strength).error = some msg) := by
  refine ⟨by simp [workerRun], ?_, ?_⟩
  · intro p _ hp
    rw [hp]
    exact ⟨rfl, rfl, rfl⟩
  · intro p _ msg hp
    rw [hp]
    exact ⟨rfl, rfl⟩

/-- A sample dequeued job. -/
def job0 : AnalysisJob :=
  { frame_id := "frame-1", frame_data := "img", motion_strength := 50, websocket_id := "ws-1" }

theorem C8_amended_witness :
    (workerRun [(job0, .timeout)]).length = [(job0, LlavaOutcome.timeout)].length ∧
      (process_frame_with_llava .timeout job0.motion_strength).success = false ∧
      (process_frame_with_llava .timeout job0.motion_strength).error = some "Timeout" ∧
      (workerStep job0 .timeout).description =
        "Analysis timeout (motion: " ++ fmt1 job0.motion_strength ++ "%)" :=
  have h := C8_amended_timeout_recovery [(job0, .timeout)]
  ⟨h.1,
    (h.2.1 (job0, .timeout) (List.mem_singleton_self _) rfl).1,
    (h.2.1 (job0, .timeout) (List.mem_singleton_self _) rfl).2.1,
    (h.2.1 (job0, .timeout) (List.mem_singleton_self _) rfl).2.2⟩
